import Mathlib

/-
Verification of the CNDI Template micro-language interpreter, the
`use-template` module (`src/use-template/mod.ts`).

The embedding models JavaScript strings as `List Char` (wrapped into
`String` at the interfaces), JavaScript primitive values as `JSValue`,
and parsed YAML documents as `JTree`.  Functions named after source
functions are translated from the source; helpers that live outside the
module (the `deps` key-path accessors, the string utilities, the
comparator table, the YAML serializer) are modelled from the
specification and say so in their doc comments.
-/

/-- JavaScript primitive values as used by the template engine
(`CNDITemplatePromptResponsePrimitive` plus `null`, `undefined` and the
`NaN` number).  Array primitives are not modelled; no claim exercises
them. -/
inductive JSValue where
  | str (s : String)
  | num (n : Int)
  | nan
  | bool (b : Bool)
  | null
  | undef
deriving DecidableEq, Repr

/-- JavaScript truthiness of a primitive value. -/
def jsTruthy : JSValue → Bool
  | .str s => !(s == "")
  | .num n => !(n == 0)
  | .nan => false
  | .bool b => b
  | .null => false
  | .undef => false

/-- JavaScript string coercion (template literal `${val}`) of a primitive. -/
def jsToString : JSValue → String
  | .str s => s
  | .num n => toString n
  | .nan => "NaN"
  | .bool b => if b then "true" else "false"
  | .null => "null"
  | .undef => "undefined"

/-- The result of JavaScript `typeof` on a primitive value. -/
def jsTypeof : JSValue → String
  | .str _ => "string"
  | .num _ => "number"
  | .nan => "number"
  | .bool _ => "boolean"
  | .null => "object"
  | .undef => "undefined"

/-- JavaScript strict equality `===` on primitives (`NaN` is unequal to
everything, including itself). -/
def jsEq : JSValue → JSValue → Bool
  | .str a, .str b => a == b
  | .num a, .num b => a == b
  | .bool a, .bool b => a == b
  | .null, .null => true
  | .undef, .undef => true
  | _, _ => false

/-- The Response Store `$cndi.responses`: a JavaScript `Map` from prompt
name to primitive value, modelled as an association list in insertion
order with unique keys maintained by `storeSet`. -/
abbrev RespStore := List (String × JSValue)

/-- First value stored under a key (JS `Map.prototype.get`, `undefined`
becoming `none`). -/
def lookupStore : RespStore → String → Option JSValue
  | [], _ => none
  | e :: rest, k => if e.1 == k then some e.2 else lookupStore rest k

/-- JS `Map.prototype.has`. -/
def storeHas (st : RespStore) (k : String) : Bool :=
  (lookupStore st k).isSome

/-- JS `Map.prototype.set`: overwrite in place when the key exists
(keeping its insertion position), append otherwise. -/
def storeSet : RespStore → String → JSValue → RespStore
  | [], k, v => [(k, v)]
  | e :: rest, k, v => if e.1 == k then (k, v) :: rest else e :: storeSet rest k v

/-- The source's `$cndi.getResponsesAsRecord(skipUndefined)`: the stored
entries in insertion order, dropping entries whose value is `undefined`
when `skipUndefined` is set. -/
def getResponsesAsRecord (skipUndefined : Bool) (st : RespStore) : RespStore :=
  if skipUndefined then st.filter (fun e => !(e.2 == JSValue.undef)) else st

/-- The character `\x7b`. -/
def lbrace : Char := Char.ofNat 123

/-- The character `\x7d`. -/
def rbrace : Char := Char.ofNat 125

/-- The single-quote character. -/
def squote : Char := Char.ofNat 39

/-- Whitespace characters matched by the regex class `\s` (the ones that
occur in template text). -/
def isWSChar (c : Char) : Bool :=
  c == ' ' || c == '\t' || c == '\n' || c == '\r'

/-- Drop leading and trailing whitespace of a character list. -/
def trimWS (l : List Char) : List Char :=
  ((l.dropWhile isWSChar).reverse.dropWhile isWSChar).reverse

/-- Split a character list at the first occurrence of the two-character
close delimiter, returning the text before it and the text after it. -/
def splitAtCloseBraces : List Char → Option (List Char × List Char)
  | [] => none
  | c :: rest =>
    if c == rbrace then
      match rest with
      | c2 :: rest2 =>
        if c2 == rbrace then some ([], rest2)
        else (splitAtCloseBraces rest).map (fun p => (c :: p.1, p.2))
      | [] => none
    else (splitAtCloseBraces rest).map (fun p => (c :: p.1, p.2))

/-- Fuelled worker for `removeWhitespaceBetweenBraces`; the fuel is an
upper bound on the number of scanning steps (one character is consumed
per unit of fuel at least). -/
def rwbAux : Nat → List Char → List Char
  | _, [] => []
  | 0, l => l
  | fuel + 1, c :: rest =>
    if c == lbrace then
      match rest with
      | c2 :: rest2 =>
        if c2 == lbrace then
          match splitAtCloseBraces rest2 with
          | some (inner, after) =>
            c :: c2 :: (trimWS inner ++ rbrace :: rbrace :: rwbAux fuel after)
          | none => c :: rwbAux fuel rest
        else c :: rwbAux fuel rest
      | [] => [c]
    else c :: rwbAux fuel rest

/-- Modelled from the spec: the `use-template/util/strings.ts` helper
`removeWhitespaceBetweenBraces` (not under `src/`), "a separate
whitespace-normalization helper collapses internal whitespace inside
`\x7b\x7b ... \x7d\x7d` delimiters": each group opened by a double brace
and closed by the first following double close brace has the whitespace
adjacent to its delimiters removed. -/
def removeWhitespaceBetweenBraces (l : List Char) : List Char :=
  rwbAux l.length l

/-- Fuelled worker for `replaceAll`; fuel bounds the number of scanning
steps. -/
def replaceAllAux (pat rep : List Char) : Nat → List Char → List Char
  | _, [] => []
  | 0, l => l
  | fuel + 1, c :: rest =>
    if !pat.isEmpty && pat.isPrefixOf (c :: rest) then
      rep ++ replaceAllAux pat rep fuel ((c :: rest).drop pat.length)
    else c :: replaceAllAux pat rep fuel rest

/-- JavaScript `String.prototype.replaceAll` with a plain (non-regex)
pattern: replace every non-overlapping occurrence, scanning left to
right. -/
def replaceAll (pat rep l : List Char) : List Char :=
  replaceAllAux pat rep l.length l

/-- Whether `pat` occurs as a contiguous substring of `l` (the
occurrence notion used by `replaceAll`). -/
def containsPat (pat : List Char) : List Char → Bool
  | [] => pat.isPrefixOf []
  | c :: rest => pat.isPrefixOf (c :: rest) || containsPat pat rest

/-- The literal text of a `get_prompt_response` macro token for a given
prompt name. -/
def promptResponseToken (k : String) : List Char :=
  ("\x7b\x7b$cndi.get_prompt_response(" ++ k ++ ")\x7d\x7d").data

/-- The quoted form of a `get_prompt_response` token: the token wrapped
in single quotes. -/
def quotedPromptResponseToken (k : String) : List Char :=
  squote :: promptResponseToken k ++ [squote]

/-- The source's `literalizeGetPromptResponseCalls`: normalize
whitespace between braces, then for every Response Store entry replace
the token with the value's string coercion; for non-string values the
single-quoted form is replaced first (so the value serializes as a
native YAML scalar), then the bare form. -/
def literalizeGetPromptResponseCalls (st : RespStore) (input : List Char) : List Char :=
  st.foldl
    (fun output e =>
      let tok := promptResponseToken e.1
      match e.2 with
      | JSValue.str s => replaceAll tok s.data output
      | v =>
        replaceAll tok (jsToString v).data
          (replaceAll (quotedPromptResponseToken e.1) (jsToString v).data output))
    (removeWhitespaceBetweenBraces input)

/-- String-level wrapper of `literalizeGetPromptResponseCalls`. -/
def literalizeGetPromptResponseCallsStr (st : RespStore) (s : String) : String :=
  String.mk (literalizeGetPromptResponseCalls st s.data)

/-- Digit run to a natural number. -/
def digitsToNat (l : List Char) : Nat :=
  l.foldl (fun acc c => acc * 10 + (c.toNat - 48)) 0

/-- Leading digit run of a character list, `none` when there is none. -/
def parseLeadingDigits (l : List Char) : Option Nat :=
  let ds := l.takeWhile (fun c => c.isDigit)
  if ds.isEmpty then none else some (digitsToNat ds)

/-- JavaScript `parseInt` restricted to base 10: skip leading
whitespace, accept an optional sign, parse the maximal leading digit
run; `none` models the `NaN` result.  (The hexadecimal `0x` form is not
modelled; no claim exercises it.) -/
def jsParseInt (s : List Char) : Option Int :=
  let t := s.dropWhile isWSChar
  match t with
  | c :: rest =>
    if c == '-' then (parseLeadingDigits rest).map (fun n => -(n : Int))
    else if c == '+' then (parseLeadingDigits rest).map (fun n => (n : Int))
    else (parseLeadingDigits t).map (fun n => (n : Int))
  | [] => none

/-- Inject a `parseInt` result back into a JavaScript value (`none`
becomes `NaN`). -/
def intToJSNumber : Option Int → JSValue
  | none => JSValue.nan
  | some n => JSValue.num n

/-- Modelled from the spec: the closed comparator table
`CNDITemplateComparators` of `use-template/util/conditions.ts` (not
under `src/`), "a small closed set of named binary predicates (equals,
not-equals, greater-than, less-than, and their variants)".  Numeric
order comparators are false on non-numbers; an unknown comparator name
yields false. -/
def CNDITemplateComparators (comparator : String) (a b : JSValue) : Bool :=
  match comparator with
  | "==" => jsEq a b
  | "!=" => !(jsEq a b)
  | ">" =>
    match a, b with
    | JSValue.num x, JSValue.num y => x > y
    | _, _ => false
  | ">=" =>
    match a, b with
    | JSValue.num x, JSValue.num y => x ≥ y
    | _, _ => false
  | "<" =>
    match a, b with
    | JSValue.num x, JSValue.num y => x < y
    | _, _ => false
  | "<=" =>
    match a, b with
    | JSValue.num x, JSValue.num y => x ≤ y
    | _, _ => false
  | _ => false

/-- The source's `resolveCNDIPromptCondition` on a condition tuple
`[input, comparator, standard]`.  For a string input the input is
literalized into `val`; when `typeof standard` is `"number"` the code
applies `parseInt` to the original `input` (not to `val`); when it is
`"boolean"` it compares `val` against the literal text `"true"`;
otherwise the literalized `val` is compared.  (The source's
`val === undefined` guard is unreachable there because the literalizer
always returns a string, so it has no counterpart here.) -/
def resolveCNDIPromptCondition (st : RespStore)
    (condition : JSValue × String × JSValue) : Bool :=
  let (input, comparator, standard) := condition
  let standardType := jsTypeof standard
  match input with
  | JSValue.str s =>
    let val := literalizeGetPromptResponseCallsStr st s
    if standardType == "number" then
      CNDITemplateComparators comparator (intToJSNumber (jsParseInt s.data)) standard
    else if standardType == "boolean" then
      CNDITemplateComparators comparator (JSValue.bool (val == "true")) standard
    else
      CNDITemplateComparators comparator (JSValue.str val) standard
  | v => CNDITemplateComparators comparator v standard

/-- Parsed YAML documents (the generic object/array/scalar trees the
output processors operate on). -/
inductive JTree where
  | scalar (v : JSValue)
  | obj (entries : List (String × JTree))
  | arr (elems : List JTree)
deriving Repr

/-- First value stored under a key in a JavaScript object, modelled as
an association list (`undefined` becoming `none`). -/
def lookupEntry {α : Type} : List (String × α) → String → Option α
  | [], _ => none
  | e :: rest, k => if e.1 == k then some e.2 else lookupEntry rest k

/-- JavaScript truthiness of a parsed YAML node (objects and arrays are
always truthy). -/
def jtreeTruthy : JTree → Bool
  | JTree.scalar v => jsTruthy v
  | JTree.obj _ => true
  | JTree.arr _ => true

mutual

/-- JavaScript string coercion of a parsed YAML node: scalars coerce as
primitives, objects give the "[object Object]" text, arrays join their
elements with commas (null and undefined elements joining as empty
text). -/
def jtreeToString : JTree → String
  | JTree.scalar v => jsToString v
  | JTree.obj _ => "[object Object]"
  | JTree.arr xs => String.intercalate "," (jtreeToStringList xs)

/-- Element-wise string coercion used by array joining. -/
def jtreeToStringList : List JTree → List String
  | [] => []
  | t :: ts =>
    (match t with
     | JTree.scalar JSValue.null => ""
     | JTree.scalar JSValue.undef => ""
     | t2 => jtreeToString t2) :: jtreeToStringList ts

end

/-- A `PathSegment` of the source: an object key or an array index. -/
abbrev Seg := Sum String Nat

/-- Modelled from the spec: the `deps` accessor `getValueFromKeyPath`
(not under `src/`), a "generic tree accessor" reading the value at a
key path; `none` models the `undefined` result for a path that does not
exist in the tree. -/
def getValueFromKeyPath : JTree → List Seg → Option JTree
  | t, [] => some t
  | t, s :: rest =>
    match t, s with
    | JTree.obj es, Sum.inl k =>
      match lookupEntry es k with
      | some v => getValueFromKeyPath v rest
      | none => none
    | JTree.arr xs, Sum.inr i =>
      match xs[i]? with
      | some v => getValueFromKeyPath v rest
      | none => none
    | _, _ => none

/-- Map a function over the value stored under a key, leaving other
entries unchanged. -/
def mapEntryValue (es : List (String × JTree)) (k : String) (f : JTree → JTree) :
    List (String × JTree) :=
  es.map (fun e => if e.1 == k then (e.1, f e.2) else e)

/-- Apply a function to the element at an index, leaving the rest of
the list unchanged. -/
def modifyAt : List JTree → Nat → (JTree → JTree) → List JTree
  | [], _, _ => []
  | x :: xs, 0, f => f x :: xs
  | x :: xs, i + 1, f => x :: modifyAt xs i f

/-- Modelled from the spec: the `deps` accessor `unsetValueForKeyPath`
(not under `src/`), a "generic tree accessor" deleting the value at a
key path: the final segment deletes an object property (or splices an
array element); interior segments descend without reshaping; a path
that misses the tree leaves it unchanged. -/
def unsetValueForKeyPath : JTree → List Seg → JTree
  | t, [] => t
  | t, s :: rest =>
    match t, s with
    | JTree.obj es, Sum.inl k =>
      if rest.isEmpty then JTree.obj (es.filter (fun e => !(e.1 == k)))
      else JTree.obj (mapEntryValue es k (fun v => unsetValueForKeyPath v rest))
    | JTree.arr xs, Sum.inr i =>
      if rest.isEmpty then JTree.arr (xs.eraseIdx i)
      else JTree.arr (modifyAt xs i (fun v => unsetValueForKeyPath v rest))
    | t2, _ => t2

/-- The number of own enumerable keys (`Object.keys(value).length`) of
the JavaScript value behind an optional tree node: entry count for
objects, element count for arrays, character count for strings (their
index keys), zero for the other primitives.  (`Object.keys` of
`undefined` throws in JavaScript; the callers below only reach it on
paths that exist.) -/
def objectKeysLength : Option JTree → Nat
  | some (JTree.obj es) => es.length
  | some (JTree.arr xs) => xs.length
  | some (JTree.scalar (JSValue.str s)) => s.length
  | _ => 0

/-- The `shouldOutput == false` branch of the source's
`processCNDIConfigOutput` loop: for a `$cndi.get_block` call site at
`pathToKey` whose condition evaluated false, read the number of
children of the parent node; when the call-site key is the sole child,
unset the parent path, otherwise unset the call-site path.  (The local
name `numChilden` keeps the source's spelling.) -/
def removeUnsatisfiedGetBlockCallSite (doc : JTree) (pathToKey : List Seg) : JTree :=
  let numChilden := objectKeysLength (getValueFromKeyPath doc pathToKey.dropLast)
  if numChilden == 1 then unsetValueForKeyPath doc pathToKey.dropLast
  else unsetValueForKeyPath doc pathToKey

/-- Modelled from the spec: the external YAML serializer
(`YAML.stringify` from `deps`).  Scalars serialize in plain style
followed by a newline; the exact container scheme is irrelevant here —
the claims evaluate the serializer only at `null`. -/
def yamlStringifyTree (t : JTree) : String :=
  jtreeToString t ++ "\n"

/-- Outcomes of the identifier-resolution functions: a resolved YAML
text, a coded error, or a delegation to the network/filesystem fetch
path (URL and file-path identifiers), which the claims do not
exercise. -/
inductive BlockFetchOutcome where
  | ok (yaml : String)
  | err (code : Nat)
  | fetchesURL (url : String)
deriving DecidableEq, Repr

/-- The source's `getBlockForIdentifier` with the platform URL parse
abstracted into the `parsesAsURL` flag: URL identifiers and identifiers
containing a path separator delegate to fetching; a bare name is looked
up in the named-block store `$cndi.blocks`, where a falsy content that
is exactly `null` resolves to the YAML serialization of `null`, any
other falsy content (including a missing entry, which reads as
`undefined`) is the coded error 1208, and truthy content resolves to
its YAML serialization. -/
def getBlockForIdentifier (blocks : List (String × JTree)) (parsesAsURL : Bool)
    (blockIdentifier : String) : BlockFetchOutcome :=
  if parsesAsURL then BlockFetchOutcome.fetchesURL blockIdentifier
  else if blockIdentifier.data.contains '/' then
    BlockFetchOutcome.fetchesURL ("file://" ++ blockIdentifier)
  else
    let blockContent := (lookupEntry blocks blockIdentifier).getD (JTree.scalar JSValue.undef)
    if !(jtreeTruthy blockContent) then
      match blockContent with
      | JTree.scalar JSValue.null =>
        BlockFetchOutcome.ok (yamlStringifyTree (JTree.scalar JSValue.null))
      | _ => BlockFetchOutcome.err 1208
    else BlockFetchOutcome.ok (yamlStringifyTree blockContent)

/-- How the prompt loop of `useTemplate` handles one prompt spec. -/
inductive PromptAction where
  | skip
  | importBlock
  | literalPrompt
deriving DecidableEq, Repr

/-- The dispatch step of the `useTemplate` prompt loop on one prompt
spec (a parsed YAML mapping): a spec whose truthy `name` field is
already present in the Response Store is skipped; otherwise the spec is
treated as a block-import statement exactly when it has exactly one
key (`Object.keys(pSpec).length === 1`), and as a literal prompt
otherwise. -/
def classifyPromptSpec (responses : RespStore) (pSpec : List (String × JTree)) :
    PromptAction :=
  let alreadyAnswered :=
    match lookupEntry pSpec "name" with
    | some nameVal => jtreeTruthy nameVal && storeHas responses (jtreeToString nameVal)
    | none => false
  if alreadyAnswered then PromptAction.skip
  else if pSpec.length == 1 then PromptAction.importBlock
  else PromptAction.literalPrompt

/-- String prefix test (`String.prototype.startsWith`). -/
def strStartsWith (s pfx : String) : Bool :=
  pfx.data.isPrefixOf s.data

/-- Fuelled worker for `splitOnPat`. -/
def splitOnPatAux (pat : List Char) : Nat → List Char → List (List Char)
  | _, [] => [[]]
  | 0, l => [l]
  | fuel + 1, c :: rest =>
    if !pat.isEmpty && pat.isPrefixOf (c :: rest) then
      [] :: splitOnPatAux pat fuel ((c :: rest).drop pat.length)
    else
      match splitOnPatAux pat fuel rest with
      | s :: ss => (c :: s) :: ss
      | [] => [[c]]

/-- JavaScript `String.prototype.split` with a plain string
separator. -/
def splitOnPat (pat l : List Char) : List (List Char) :=
  splitOnPatAux pat l.length l

/-- Indexing into a JavaScript split result (out-of-range reads as
empty; the callers only index positions that exist). -/
def jsSplitIndex (pat l : List Char) (i : Nat) : List Char :=
  (splitOnPat pat l).getD i []

/-- The identifier extraction of the readme processor:
`key.split("$cndi.get_string(")[1].split(")")[0]`. -/
def getStringCallIdentifier (key : String) : String :=
  String.mk (jsSplitIndex ")".data (jsSplitIndex "$cndi.get_string(".data key.data 1) 0)

/-- Result of the readme processor: the rendered lines, or a coded
error. -/
inductive ReadmeResult where
  | ok (lines : List String)
  | err (code : Nat)
deriving DecidableEq, Repr

/-- The key loop of the source's `processCNDIReadmeOutput`, over the
(already literalized and re-parsed) readme spec in enumeration order.
`fetchString` abstracts `getStringForIdentifier` (`none` is a failed
fetch, which degrades to an inline HTML-comment marker).  The second
component records the identifiers for which a `$cndi.get_string` fetch
is attempted, in order.  A key prefixed `$cndi.get_block` returns the
coded error 1204 at the point it is reached, abandoning the accumulated
lines as the source's early return does. -/
def processCNDIReadmeOutput (fetchString : String → Option String) :
    List (String × JTree) → ReadmeResult × List String
  | [] => (ReadmeResult.ok [], [])
  | (key, v) :: rest =>
    if strStartsWith key "$cndi.get_block" then (ReadmeResult.err 1204, [])
    else if strStartsWith key "$cndi.get_string" then
      let identifier := getStringCallIdentifier key
      let line :=
        match fetchString identifier with
        | some s => s
        | none => "<!-- fetch error -->"
      let r := processCNDIReadmeOutput fetchString rest
      (match r.1 with
       | ReadmeResult.ok lines => ReadmeResult.ok (line :: lines)
       | e => e,
       identifier :: r.2)
    else if strStartsWith key "$cndi.comment" then
      let r := processCNDIReadmeOutput fetchString rest
      (match r.1 with
       | ReadmeResult.ok lines =>
         ReadmeResult.ok (("<!-- " ++ jtreeToString v ++ " -->") :: lines)
       | e => e,
       r.2)
    else
      let r := processCNDIReadmeOutput fetchString rest
      (match r.1 with
       | ReadmeResult.ok lines => ReadmeResult.ok (jtreeToString v :: lines)
       | e => e,
       r.2)

/-- The double-quote character. -/
def dquote : Char := Char.ofNat 34

/-- Modelled from the spec: the `use-template/util/strings.ts` helper
`unwrapQuotes` (not under `src/`): strip one pair of wrapping single or
double quotes, otherwise return the text unchanged. -/
def unwrapQuotesL (l : List Char) : List Char :=
  if 2 ≤ l.length &&
      ((l.head? == some squote && l.getLast? == some squote) ||
       (l.head? == some dquote && l.getLast? == some dquote)) then
    (l.drop 1).dropLast
  else l

/-- String-level wrapper of `unwrapQuotesL`. -/
def unwrapQuotes (s : String) : String :=
  String.mk (unwrapQuotesL s.data)

/-- The text consisting of two single quotes. -/
def twoSingleQuotes : String :=
  String.mk [squote, squote]

/-- The per-entry line emission of the main pass of the source's
`processCNDIEnvOutput`, over the working env spec (after the get_block
merge pre-pass).  `lit` abstracts the composed literalization
`literalizeGetRandomStringCalls(literalizeGetPromptResponseCalls(...))`
applied to the entry's coerced value (the random-string pass draws
fresh randomness, so it is kept abstract).  Comment keys emit a comment
line, get_block keys emit nothing (already merged), an empty or
empty-quoted literalized value emits the placeholder assignment, and
anything else emits a plain `KEY=value` assignment. -/
def envLineForEntry (lit : String → String) (key : String) (v : JTree) : Option String :=
  let val := lit (jtreeToString v)
  if strStartsWith key "$cndi.comment" then some ("\n# " ++ unwrapQuotes val)
  else if strStartsWith key "$cndi.get_block" then none
  else if val == "" || val == twoSingleQuotes then
    some (key ++ "=__" ++ key ++ "_PLACEHOLDER__")
  else some (key ++ "=" ++ val)

/-- The lines emitted by the main pass of `processCNDIEnvOutput` (they
are joined with newlines by the source). -/
def processCNDIEnvLines (lit : String → String) (envSpec : List (String × JTree)) :
    List String :=
  envSpec.filterMap (fun e => envLineForEntry lit e.1 e.2)

/-- The source's fixed provider-to-distribution table
`distributionMap`; indexing with an unknown provider name reads as
`undefined` (`none`). -/
def distributionMap (provider : String) : Option String :=
  match provider with
  | "aws" => some "eks"
  | "azure" => some "aks"
  | "gcp" => some "gke"
  | "dev" => some "microk8s"
  | _ => none

/-- Top-level field of a parsed document (non-objects have none). -/
def lookupTopField (cfg : JTree) (k : String) : Option JTree :=
  match cfg with
  | JTree.obj es => lookupEntry es k
  | _ => none

/-- The guard of the source's `fixUndefinedDistributionIfRequired`:
`!obj?.distribution || obj.distribution === "undefined"` on the parsed
processed config. -/
def configNeedsDistributionFix (cfg : JTree) : Bool :=
  match lookupTopField cfg "distribution" with
  | none => true
  | some t =>
    !(jtreeTruthy t) ||
      (match t with
       | JTree.scalar (JSValue.str s) => s == "undefined"
       | _ => false)

/-- The distribution value the source defaults to:
`distributionMap[provider] || null` with the config's top-level
`provider` field coerced to a property key (non-string providers index
nothing and fall back to `null`). -/
def defaultedDistribution (cfg : JTree) : JSValue :=
  match lookupTopField cfg "provider" with
  | some (JTree.scalar (JSValue.str p)) =>
    match distributionMap p with
    | some d => JSValue.str d
    | none => JSValue.null
  | _ => JSValue.null

/-- The Response-Store effect of `fixUndefinedDistributionIfRequired`:
when the processed config's `distribution` is missing, falsy or the
text "undefined", the defaulted distribution is recorded under the key
`deployment_target_distribution`. -/
def fixUndefinedDistributionResponses (st : RespStore) (cfg : JTree) : RespStore :=
  if configNeedsDistributionFix cfg then
    storeSet st "deployment_target_distribution" (defaultedDistribution cfg)
  else st

/-- The Response-Store slice of one `useTemplate` call on a template
with `prompts: []` in non-interactive cli mode: `st` is the
module-global `$cndi.responses` as the call begins (the source never
clears it), `overrides` are injected with `Map.set` in order, the empty
prompt loop contributes nothing, and the only remaining statement that
writes the store on this path is `fixUndefinedDistributionIfRequired`
inside the config output processing, applied to `processedConfig` (the
config document at that step).  Returns the module-global store as the
call ends, paired with the `responses` record the call returns
(`getResponsesAsRecord(true)`, which skips `undefined` entries). -/
def useTemplateEmptyPromptsCall (st : RespStore) (overrides : RespStore)
    (processedConfig : JTree) : RespStore × RespStore :=
  let afterOverrides := overrides.foldl (fun s e => storeSet s e.1 e.2) st
  let afterConfig := fixUndefinedDistributionResponses afterOverrides processedConfig
  (afterConfig, getResponsesAsRecord true afterConfig)

theorem isPrefixOf_false_of_containsPat_false {pat l : List Char}
    (h : containsPat pat l = false) : pat.isPrefixOf l = false := by
  cases l with
  | nil => simpa [containsPat] using h
  | cons c rest =>
    simp only [containsPat, Bool.or_eq_false_iff] at h
    exact h.1

theorem containsPat_tail {pat : List Char} {c : Char} {l : List Char}
    (h : containsPat pat (c :: l) = false) : containsPat pat l = false := by
  simp only [containsPat, Bool.or_eq_false_iff] at h
  exact h.2

theorem replaceAllAux_no_occurrence (pat rep : List Char) :
    ∀ (fuel : Nat) (l : List Char), containsPat pat l = false →
      replaceAllAux pat rep fuel l = l := by
  intro fuel
  induction fuel with
  | zero => intro l _; cases l <;> rfl
  | succ n ih =>
    intro l h
    cases l with
    | nil => rfl
    | cons c rest =>
      have hp := isPrefixOf_false_of_containsPat_false h
      simp [replaceAllAux, hp, ih rest (containsPat_tail h)]

theorem replaceAll_no_occurrence (pat rep : List Char) (l : List Char)
    (h : containsPat pat l = false) : replaceAll pat rep l = l :=
  replaceAllAux_no_occurrence pat rep l.length l h

theorem isPrefixOf_append_right (l t : List Char) : l.isPrefixOf (l ++ t) = true := by
  induction l with
  | nil => simp [List.isPrefixOf]
  | cons c rest ih => simp [List.isPrefixOf, ih]

theorem eq_append_of_isPrefixOf {p l : List Char} (h : p.isPrefixOf l = true) :
    ∃ t, l = p ++ t := by
  induction p generalizing l with
  | nil => exact ⟨l, rfl⟩
  | cons a as ih =>
    cases l with
    | nil => simp [List.isPrefixOf] at h
    | cons b bs =>
      simp only [List.isPrefixOf, Bool.and_eq_true, beq_iff_eq] at h
      obtain ⟨t, ht⟩ := ih h.2
      exact ⟨t, by simp [h.1, ht]⟩

theorem containsPat_append_self (pat : List Char) :
    ∀ (x y : List Char), containsPat pat (x ++ pat ++ y) = true := by
  intro x
  induction x with
  | nil =>
    intro y
    cases hpy : pat ++ y with
    | nil => simpa [containsPat, hpy] using isPrefixOf_append_right pat y
    | cons c rest =>
      simp only [List.nil_append, containsPat, hpy, Bool.or_eq_true]
      exact Or.inl (by
        have := isPrefixOf_append_right pat y
        rwa [hpy] at this)
  | cons c rest ih =>
    intro y
    simp only [List.cons_append, containsPat, Bool.or_eq_true]
    exact Or.inr (by simpa using ih y)

theorem containsPat_superpattern {a pat b l : List Char}
    (h : containsPat (a ++ pat ++ b) l = true) : containsPat pat l = true := by
  induction l with
  | nil =>
    simp only [containsPat] at h
    cases hq : a ++ pat ++ b with
    | nil =>
      have hpat : pat = [] := by
        rcases List.append_eq_nil.mp hq with ⟨h1, _⟩
        exact (List.append_eq_nil.mp h1).2
      simp [containsPat, hpat, List.isPrefixOf]
    | cons q qs =>
      rw [hq] at h
      simp [List.isPrefixOf] at h
  | cons c rest ih =>
    have h2 : (a ++ pat ++ b).isPrefixOf (c :: rest) = true
        ∨ containsPat (a ++ pat ++ b) rest = true := by
      simpa [containsPat] using h
    rcases h2 with h2 | h2
    · obtain ⟨t, ht⟩ := eq_append_of_isPrefixOf h2
      rw [ht, List.append_assoc (a ++ pat) b t]
      exact containsPat_append_self pat a (b ++ t)
    · have hr := ih h2
      simp [containsPat, hr]

theorem containsPat_quoted_false {k : String} {l : List Char}
    (h : containsPat (promptResponseToken k) l = false) :
    containsPat (quotedPromptResponseToken k) l = false := by
  by_contra hc
  have ht : containsPat (quotedPromptResponseToken k) l = true := by
    cases hv : containsPat (quotedPromptResponseToken k) l
    · exact absurd hv hc
    · rfl
  have : containsPat (promptResponseToken k) l = true := by
    have heq : quotedPromptResponseToken k
        = [squote] ++ promptResponseToken k ++ [squote] := by
      simp [quotedPromptResponseToken]
    exact containsPat_superpattern (heq ▸ ht)
  simp [this] at h

theorem literalizeGetPromptResponseCalls_fixed (st : RespStore) (l : List Char)
    (hWS : removeWhitespaceBetweenBraces l = l)
    (h : ∀ e ∈ st, containsPat (promptResponseToken e.1) l = false) :
    literalizeGetPromptResponseCalls st l = l := by
  unfold literalizeGetPromptResponseCalls
  rw [hWS]
  induction st with
  | nil => rfl
  | cons e rest ih =>
    have h1 : containsPat (promptResponseToken e.1) l = false := h e (by simp)
    have hq := containsPat_quoted_false h1
    have hstep :
        (match e.2 with
         | JSValue.str s => replaceAll (promptResponseToken e.1) s.data l
         | v =>
           replaceAll (promptResponseToken e.1) (jsToString v).data
             (replaceAll (quotedPromptResponseToken e.1) (jsToString v).data l)) = l := by
      cases e.2 <;>
        simp [replaceAll_no_occurrence _ _ _ h1, replaceAll_no_occurrence _ _ _ hq]
    simp only [List.foldl_cons]
    rw [hstep]
    exact ih (fun x hx => h x (by simp [hx]))

/-- Claim C9 (counterexample): the prompt-response substitution pass is not
idempotent on all text whose first pass leaves no stored-name token.
With the store mapping `a` to the text "\x7b\x7b x \x7d\x7d", the first
pass over the bare token for `a` leaves no `get_prompt_response` token
for any stored name, yet a second pass still changes the text (its
whitespace-normalization step rewrites the brace group the substituted
value introduced). -/
theorem literalize_not_idempotent_counterexample :
    containsPat (promptResponseToken "a")
      (literalizeGetPromptResponseCallsStr [("a", JSValue.str "\x7b\x7b x \x7d\x7d")]
        "\x7b\x7b$cndi.get_prompt_response(a)\x7d\x7d").data = false
    ∧ literalizeGetPromptResponseCallsStr [("a", JSValue.str "\x7b\x7b x \x7d\x7d")]
        (literalizeGetPromptResponseCallsStr [("a", JSValue.str "\x7b\x7b x \x7d\x7d")]
          "\x7b\x7b$cndi.get_prompt_response(a)\x7d\x7d")
      ≠ literalizeGetPromptResponseCallsStr [("a", JSValue.str "\x7b\x7b x \x7d\x7d")]
          "\x7b\x7b$cndi.get_prompt_response(a)\x7d\x7d" := by
  constructor
  · decide
  · decide

/-- Claim C9 (amended): the prompt-response substitution pass is idempotent on
fully-substituted text that is also whitespace-normal between braces:
when the first pass leaves no `get_prompt_response` token for any name
in the Response Store and leaves no whitespace to collapse inside brace
delimiters, running `literalizeGetPromptResponseCalls` again returns the
text unchanged. -/
theorem literalize_idempotent_on_normalized (st : RespStore) (t : String)
    (hTok : ∀ e ∈ st, containsPat (promptResponseToken e.1)
      (literalizeGetPromptResponseCallsStr st t).data = false)
    (hWS : removeWhitespaceBetweenBraces (literalizeGetPromptResponseCallsStr st t).data
      = (literalizeGetPromptResponseCallsStr st t).data) :
    literalizeGetPromptResponseCallsStr st (literalizeGetPromptResponseCallsStr st t)
      = literalizeGetPromptResponseCallsStr st t := by
  have hfix := literalizeGetPromptResponseCalls_fixed st
    (literalizeGetPromptResponseCallsStr st t).data hWS hTok
  show String.mk (literalizeGetPromptResponseCalls st
    (literalizeGetPromptResponseCallsStr st t).data) = _
  rw [hfix]

theorem literalize_idempotent_on_normalized_witness :
    literalizeGetPromptResponseCallsStr [("a", JSValue.str "hello")]
        (literalizeGetPromptResponseCallsStr [("a", JSValue.str "hello")]
          "name: \x7b\x7b$cndi.get_prompt_response(a)\x7d\x7d")
      = literalizeGetPromptResponseCallsStr [("a", JSValue.str "hello")]
          "name: \x7b\x7b$cndi.get_prompt_response(a)\x7d\x7d" :=
  literalize_idempotent_on_normalized [("a", JSValue.str "hello")]
    "name: \x7b\x7b$cndi.get_prompt_response(a)\x7d\x7d" (by decide) (by decide)

/-- Claim C2 (counterexample): in `resolveCNDIPromptCondition`, when the
standard is a number the comparator is applied to `parseInt` of the
original input, not of the literalized input.  With the store mapping
`n` to "5", the condition tuple whose input is the bare token for `n`,
comparator `==` and standard `5` evaluates to false, while the
comparator applied to the integer parse of the literalized input (as
the claim states) yields true. -/
theorem resolveCondition_parses_raw_not_literalized :
    resolveCNDIPromptCondition [("n", JSValue.str "5")]
        (JSValue.str "\x7b\x7b$cndi.get_prompt_response(n)\x7d\x7d", "==", JSValue.num 5)
      = false
    ∧ CNDITemplateComparators "=="
        (intToJSNumber (jsParseInt
          (literalizeGetPromptResponseCallsStr [("n", JSValue.str "5")]
            "\x7b\x7b$cndi.get_prompt_response(n)\x7d\x7d").data))
        (JSValue.num 5) = true := by
  constructor
  · decide
  · decide

/-- Claim C2 (amended): for a condition tuple with a string input, the input
is literalized and, when `typeof standard` is "boolean", the literalized
text is compared for equality against the literal text "true"; but when
`typeof standard` is "number" the comparator is applied to the integer
parse of the original (unliteralized) input string. -/
theorem resolveCondition_string_coercion (st : RespStore) (s : String)
    (comparator : String) (standard : JSValue) :
    (jsTypeof standard = "number" →
      resolveCNDIPromptCondition st (JSValue.str s, comparator, standard)
        = CNDITemplateComparators comparator
            (intToJSNumber (jsParseInt s.data)) standard)
    ∧ (jsTypeof standard = "boolean" →
      resolveCNDIPromptCondition st (JSValue.str s, comparator, standard)
        = CNDITemplateComparators comparator
            (JSValue.bool (literalizeGetPromptResponseCallsStr st s == "true"))
            standard) := by
  constructor
  · intro h
    simp [resolveCNDIPromptCondition, h]
  · intro h
    simp [resolveCNDIPromptCondition, h]

theorem resolveCondition_string_coercion_witness :
    resolveCNDIPromptCondition [("n", JSValue.str "5")]
        (JSValue.str "7", "==", JSValue.num 7)
      = CNDITemplateComparators "=="
          (intToJSNumber (jsParseInt ("7").data)) (JSValue.num 7) :=
  (resolveCondition_string_coercion [("n", JSValue.str "5")] "7" "==" (JSValue.num 7)).1 rfl

/-- Claim C4 (counterexample): the prompt loop classifies a spec whose only
key is `name` as a block-import, because the dispatch tests only
`Object.keys(pSpec).length === 1`; the claim says such a spec is
processed as a literal prompt, never as an import. -/
theorem classify_name_only_spec_is_import :
    classifyPromptSpec [] [("name", JTree.scalar (JSValue.str "x"))]
      = PromptAction.importBlock
    ∧ PromptAction.importBlock ≠ PromptAction.literalPrompt := by
  constructor
  · rfl
  · decide

/-- Claim C4 (amended): a prompt spec that is not skipped as already answered
is classified as a block-import exactly when it has exactly one key —
regardless of whether that key is a `name` field. -/
theorem classify_import_iff_single_key (responses : RespStore)
    (pSpec : List (String × JTree))
    (h : classifyPromptSpec responses pSpec ≠ PromptAction.skip) :
    classifyPromptSpec responses pSpec = PromptAction.importBlock ↔ pSpec.length = 1 := by
  unfold classifyPromptSpec at h ⊢
  cases hA : (match lookupEntry pSpec "name" with
    | some nameVal => jtreeTruthy nameVal && storeHas responses (jtreeToString nameVal)
    | none => false) with
  | true => simp [hA] at h
  | false =>
    simp only [hA, Bool.false_eq_true, if_false]
    cases hL : pSpec.length == 1 with
    | true =>
      simp only [hL, if_true]
      simp [Nat.beq_eq] at hL
      simp [hL]
    | false =>
      simp only [hL, Bool.false_eq_true, if_false]
      simp [Nat.beq_eq] at hL
      simp [hL]

theorem classify_import_iff_single_key_witness :
    classifyPromptSpec [] [("$cndi.get_block(foo)", JTree.obj [])]
        = PromptAction.importBlock
      ↔ [("$cndi.get_block(foo)", JTree.obj [])].length = 1 :=
  classify_import_iff_single_key [] [("$cndi.get_block(foo)", JTree.obj [])]
    (by intro hcontra; exact PromptAction.noConfusion hcontra)

/-- Claim C5: for a bare-name block identifier (not a URL, no path
separator), a store entry explicitly mapped to `null` resolves
successfully to the YAML serialization of `null`, while a missing entry
is the coded error 1208. -/
theorem getBlock_bare_name_null_and_missing (blocks : List (String × JTree))
    (id : String) (hslash : id.data.contains '/' = false) :
    (lookupEntry blocks id = some (JTree.scalar JSValue.null) →
      getBlockForIdentifier blocks false id
        = BlockFetchOutcome.ok (yamlStringifyTree (JTree.scalar JSValue.null)))
    ∧ (lookupEntry blocks id = none →
      getBlockForIdentifier blocks false id = BlockFetchOutcome.err 1208) := by
  have hs2 : ¬ ('/' ∈ id.data) := by simpa using hslash
  constructor
  · intro h
    simp [getBlockForIdentifier, hs2, h, jtreeTruthy, jsTruthy]
  · intro h
    simp [getBlockForIdentifier, hs2, h, jtreeTruthy, jsTruthy]

theorem getBlock_bare_name_null_and_missing_witness :
    getBlockForIdentifier [("foo", JTree.scalar JSValue.null)] false "foo"
      = BlockFetchOutcome.ok (yamlStringifyTree (JTree.scalar JSValue.null)) :=
  (getBlock_bare_name_null_and_missing [("foo", JTree.scalar JSValue.null)] "foo"
    (by decide)).1 (by simp [lookupEntry])

/-- Claim C10: for a bare-name block identifier whose store entry exists but
is a falsy value other than `null` (the empty string, zero, or false),
`getBlockForIdentifier` returns the coded error 1208 rather than a
successful resolution. -/
theorem getBlock_bare_name_falsy_non_null_errors (blocks : List (String × JTree))
    (id : String) (v : JTree) (hslash : id.data.contains '/' = false)
    (hlook : lookupEntry blocks id = some v) (hfalsy : jtreeTruthy v = false)
    (hnn : v ≠ JTree.scalar JSValue.null) :
    getBlockForIdentifier blocks false id = BlockFetchOutcome.err 1208 := by
  unfold getBlockForIdentifier
  simp only [if_false, Bool.false_eq_true, hslash, hlook, Option.getD_some]
  rw [hfalsy]
  cases v with
  | scalar sv =>
    cases sv with
    | null => exact absurd rfl hnn
    | str s => rfl
    | num n => rfl
    | nan => rfl
    | bool b => rfl
    | undef => rfl
  | obj es => rfl
  | arr xs => rfl

theorem getBlock_bare_name_falsy_non_null_errors_witness :
    getBlockForIdentifier [("foo", JTree.scalar (JSValue.str ""))] false "foo"
      = BlockFetchOutcome.err 1208 :=
  getBlock_bare_name_falsy_non_null_errors [("foo", JTree.scalar (JSValue.str ""))]
    "foo" (JTree.scalar (JSValue.str "")) (by decide) (by simp [lookupEntry]) rfl
    (by intro hcontra; exact JSValue.noConfusion (JTree.scalar.inj hcontra))

/-- Claim C8: an env entry (not a comment key, not a get_block key) whose
value after full literalization is the empty string or the empty quoted
string emits the placeholder assignment, and the emitted line is never
the entry's key followed by a bare `=` with an empty right-hand side. -/
theorem env_empty_value_emits_placeholder (lit : String → String) (key : String)
    (v : JTree)
    (hc : strStartsWith key "$cndi.comment" = false)
    (hb : strStartsWith key "$cndi.get_block" = false) :
    (lit (jtreeToString v) = "" ∨ lit (jtreeToString v) = twoSingleQuotes →
      envLineForEntry lit key v = some (key ++ "=__" ++ key ++ "_PLACEHOLDER__"))
    ∧ envLineForEntry lit key v ≠ some (key ++ "=") := by
  constructor
  · intro h
    have hcond : (lit (jtreeToString v) == ""
        || lit (jtreeToString v) == twoSingleQuotes) = true := by
      rcases h with h | h <;> simp [h]
    simp [envLineForEntry, hc, hb, hcond]
  · unfold envLineForEntry
    simp only [hc, hb, Bool.false_eq_true, if_false]
    cases hcond : (lit (jtreeToString v) == ""
        || lit (jtreeToString v) == twoSingleQuotes) with
    | true =>
      simp only [if_true]
      intro hcontra
      have hlen := congrArg String.length (Option.some.inj hcontra)
      have e1 : ("=__" : String).length = 3 := rfl
      have e2 : ("_PLACEHOLDER__" : String).length = 14 := rfl
      have e3 : ("=" : String).length = 1 := rfl
      rw [String.length_append, String.length_append, String.length_append,
        String.length_append, e1, e2, e3] at hlen
      omega
    | false =>
      simp only [Bool.false_eq_true, if_false]
      intro hcontra
      have hstr := Option.some.inj hcontra
      have hlen := congrArg String.length hstr
      have e3 : ("=" : String).length = 1 := rfl
      rw [String.length_append, String.length_append, e3] at hlen
      have hz : (lit (jtreeToString v)).length = 0 := by omega
      have hnil : (lit (jtreeToString v)).data = [] :=
        List.length_eq_zero.mp hz
      have hempty : lit (jtreeToString v) = "" := String.ext hnil
      simp [hempty] at hcond

theorem env_empty_value_emits_placeholder_witness :
    envLineForEntry (fun s => s) "PORT" (JTree.scalar (JSValue.str ""))
      = some ("PORT" ++ "=__" ++ "PORT" ++ "_PLACEHOLDER__") :=
  (env_empty_value_emits_placeholder (fun s => s) "PORT"
    (JTree.scalar (JSValue.str "")) (by decide) (by decide)).1 (Or.inl rfl)

/-- Claim C7 (counterexample): the readme processor does not fail without
processing any other key.  On a readme spec whose first key is a
`$cndi.get_string` call and whose second key is a `$cndi.get_block`
call, the result is the coded error 1204, yet a `get_string` fetch for
the first key's identifier was attempted. -/
theorem readme_fetches_before_block_error :
    (processCNDIReadmeOutput (fun _ => some "hello")
      [("$cndi.get_string(u)", JTree.scalar JSValue.null),
       ("$cndi.get_block(b)", JTree.obj [])]).1 = ReadmeResult.err 1204
    ∧ (processCNDIReadmeOutput (fun _ => some "hello")
      [("$cndi.get_string(u)", JTree.scalar JSValue.null),
       ("$cndi.get_block(b)", JTree.obj [])]).2 = ["u"] := by
  constructor
  · rfl
  · rfl

/-- Claim C7 (amended): a readme outputs mapping containing a
`$cndi.get_block` key returns the distinct coded error 1204 at the
point that key is reached in enumeration order: the keys before it are
processed normally (including any `$cndi.get_string` fetch attempts,
which are exactly those the prefix alone would attempt), and no key
after it is processed. -/
theorem readme_get_block_errors_when_reached (fetchString : String → Option String)
    (front back : List (String × JTree)) (bkey : String) (bval : JTree)
    (hfront : ∀ e ∈ front, strStartsWith e.1 "$cndi.get_block" = false)
    (hb : strStartsWith bkey "$cndi.get_block" = true) :
    processCNDIReadmeOutput fetchString (front ++ (bkey, bval) :: back)
      = (ReadmeResult.err 1204, (processCNDIReadmeOutput fetchString front).2) := by
  induction front with
  | nil =>
    simp [processCNDIReadmeOutput, hb]
  | cons e rest ih =>
    obtain ⟨k, v⟩ := e
    have he : strStartsWith k "$cndi.get_block" = false := hfront (k, v) (by simp)
    have ih2 := ih (fun x hx => hfront x (by simp [hx]))
    have ih3 : processCNDIReadmeOutput fetchString (rest.append ((bkey, bval) :: back))
        = (ReadmeResult.err 1204, (processCNDIReadmeOutput fetchString rest).2) := ih2
    by_cases hs : strStartsWith k "$cndi.get_string" = true
    · simp only [List.cons_append, processCNDIReadmeOutput, he, hs,
        Bool.false_eq_true, if_false, if_true]
      rw [ih3]
    · have hs2 : strStartsWith k "$cndi.get_string" = false := by
        cases hv : strStartsWith k "$cndi.get_string"
        · rfl
        · exact absurd hv hs
      by_cases hcm : strStartsWith k "$cndi.comment" = true
      · simp only [List.cons_append, processCNDIReadmeOutput, he, hs2, hcm,
          Bool.false_eq_true, if_false, if_true]
        rw [ih3]
      · have hcm2 : strStartsWith k "$cndi.comment" = false := by
          cases hv : strStartsWith k "$cndi.comment"
          · rfl
          · exact absurd hv hcm
        simp only [List.cons_append, processCNDIReadmeOutput, he, hs2, hcm2,
          Bool.false_eq_true, if_false]
        rw [ih3]

theorem readme_get_block_errors_when_reached_witness :
    processCNDIReadmeOutput (fun _ => none)
        ([("$cndi.get_string(u)", JTree.scalar JSValue.null)]
          ++ ("$cndi.get_block(b)", JTree.obj [])
            :: [("later", JTree.scalar (JSValue.str "y"))])
      = (ReadmeResult.err 1204,
         (processCNDIReadmeOutput (fun _ => none)
           [("$cndi.get_string(u)", JTree.scalar JSValue.null)]).2) :=
  readme_get_block_errors_when_reached (fun _ => none)
    [("$cndi.get_string(u)", JTree.scalar JSValue.null)]
    [("later", JTree.scalar (JSValue.str "y"))]
    "$cndi.get_block(b)" (JTree.obj []) (by decide) (by decide)

theorem storeSet_of_lookup_none (st : RespStore) (k : String) (v : JSValue)
    (h : lookupStore st k = none) : storeSet st k v = st ++ [(k, v)] := by
  induction st with
  | nil => rfl
  | cons e rest ih =>
    have hne : (e.1 == k) = false := by
      cases hv : e.1 == k
      · rfl
      · simp [lookupStore, hv] at h
    have hrest : lookupStore rest k = none := by
      simpa [lookupStore, hne] using h
    simp [storeSet, hne, ih hrest]

theorem lookupStore_append_none (a b : RespStore) (k : String)
    (ha : lookupStore a k = none) (hb : lookupStore b k = none) :
    lookupStore (a ++ b) k = none := by
  induction a with
  | nil => simpa using hb
  | cons e rest ih =>
    have hne : (e.1 == k) = false := by
      cases hv : e.1 == k
      · rfl
      · simp [lookupStore, hv] at ha
    have hrest : lookupStore rest k = none := by
      simpa [lookupStore, hne] using ha
    simp [lookupStore, hne, ih hrest]

theorem lookupStore_eq_none_of_not_mem (st : RespStore) (k : String)
    (h : k ∉ st.map Prod.fst) : lookupStore st k = none := by
  induction st with
  | nil => rfl
  | cons e rest ih =>
    have h1 : k ≠ e.1 := by
      intro hk
      exact h (by simp [hk])
    have hne : (e.1 == k) = false := by
      cases hv : e.1 == k
      · rfl
      · exact absurd (beq_iff_eq.mp hv).symm h1
    have hrest := ih (fun hm => h (by simp [hm]))
    simp [lookupStore, hne, hrest]

theorem foldl_storeSet_append (ov : RespStore) :
    ∀ acc : RespStore, (∀ e ∈ ov, lookupStore acc e.1 = none) →
      (ov.map Prod.fst).Nodup →
      ov.foldl (fun s e => storeSet s e.1 e.2) acc = acc ++ ov := by
  induction ov with
  | nil => intro acc _ _; simp
  | cons e rest ih =>
    intro acc hnone hnd
    have h1 : lookupStore acc e.1 = none := hnone e (by simp)
    have hset : storeSet acc e.1 e.2 = acc ++ [(e.1, e.2)] :=
      storeSet_of_lookup_none acc e.1 e.2 h1
    have hnd2 : (rest.map Prod.fst).Nodup := by
      simpa using hnd.of_cons
    have hknotin : e.1 ∉ rest.map Prod.fst := by
      have := hnd
      simp only [List.map_cons, List.nodup_cons] at this
      exact this.1
    have hnone2 : ∀ x ∈ rest, lookupStore (acc ++ [(e.1, e.2)]) x.1 = none := by
      intro x hx
      have hxa : lookupStore acc x.1 = none := hnone x (by simp [hx])
      have hxs : lookupStore [(e.1, e.2)] x.1 = none := by
        have hxne : (e.1 == x.1) = false := by
          cases hv : e.1 == x.1
          · rfl
          · exact absurd (beq_iff_eq.mp hv) (by
              intro hk
              exact hknotin (hk ▸ List.mem_map_of_mem Prod.fst hx))
        simp [lookupStore, hxne]
      exact lookupStore_append_none acc [(e.1, e.2)] x.1 hxa hxs
    calc ((e :: rest).foldl (fun s x => storeSet s x.1 x.2) acc)
        = rest.foldl (fun s x => storeSet s x.1 x.2) (acc ++ [(e.1, e.2)]) := by
          simp [hset]
      _ = (acc ++ [(e.1, e.2)]) ++ rest := ih (acc ++ [(e.1, e.2)]) hnone2 hnd2
      _ = acc ++ e :: rest := by simp

theorem foldl_storeSet_nil (ov : RespStore) (h : (ov.map Prod.fst).Nodup) :
    ov.foldl (fun s e => storeSet s e.1 e.2) [] = ov := by
  simpa using foldl_storeSet_append ov [] (by intro e _; rfl) h

/-- Claim C1 (counterexample): on a template with `prompts: []` in
non-interactive mode, empty overrides and an empty config document, the
returned responses map is not the override map: the config processing's
distribution defaulting records `deployment_target_distribution` (here
`null`, since the config names no provider), a key that was not in the
overrides. -/
theorem useTemplate_adds_distribution_key :
    (useTemplateEmptyPromptsCall [] [] (JTree.obj [])).2
      = [("deployment_target_distribution", JSValue.null)]
    ∧ ([("deployment_target_distribution", JSValue.null)] : RespStore) ≠ [] := by
  constructor
  · rfl
  · simp

/-- Claim C1 (amended): for a template with `prompts: []` run
non-interactively starting from an empty Response Store, the returned
responses map equals the overrides map (with `undefined`-valued entries
omitted), except that when the processed config document's
`distribution` field is missing, falsy or the text "undefined", the key
`deployment_target_distribution` additionally appears, set to the
provider-defaulted distribution (or overwriting an override of that
key). -/
theorem useTemplate_responses_eq_overrides_amended (overrides : RespStore)
    (cfg : JTree) (hnodup : (overrides.map Prod.fst).Nodup) :
    (useTemplateEmptyPromptsCall [] overrides cfg).2
      = getResponsesAsRecord true
          (if configNeedsDistributionFix cfg then
            storeSet overrides "deployment_target_distribution"
              (defaultedDistribution cfg)
          else overrides) := by
  unfold useTemplateEmptyPromptsCall fixUndefinedDistributionResponses
  rw [foldl_storeSet_nil overrides hnodup]

theorem useTemplate_responses_eq_overrides_amended_witness :
    (useTemplateEmptyPromptsCall []
        [("a", JSValue.str "x"), ("b", JSValue.undef)]
        (JTree.obj [("distribution", JTree.scalar (JSValue.str "eks"))])).2
      = getResponsesAsRecord true
          (if configNeedsDistributionFix
              (JTree.obj [("distribution", JTree.scalar (JSValue.str "eks"))]) then
            storeSet [("a", JSValue.str "x"), ("b", JSValue.undef)]
              "deployment_target_distribution"
              (defaultedDistribution
                (JTree.obj [("distribution", JTree.scalar (JSValue.str "eks"))]))
          else [("a", JSValue.str "x"), ("b", JSValue.undef)]) :=
  useTemplate_responses_eq_overrides_amended
    [("a", JSValue.str "x"), ("b", JSValue.undef)]
    (JTree.obj [("distribution", JTree.scalar (JSValue.str "eks"))]) (by decide)

/-- Claim C3 (counterexample): the Response Store is not scoped to one
`useTemplate` invocation.  After a first call that stored the override
`a = "x"`, a second call in the same process with no overrides still
returns `a = "x"` in its responses: the module-global store is never
cleared between calls.  (The config document carries a `distribution`
field so that neither call's distribution defaulting obscures the
leak.) -/
theorem responses_leak_across_invocations :
    ("a", JSValue.str "x") ∈
      (useTemplateEmptyPromptsCall
        (useTemplateEmptyPromptsCall [] [("a", JSValue.str "x")]
          (JTree.obj [("distribution", JTree.scalar (JSValue.str "eks"))])).1
        []
        (JTree.obj [("distribution", JTree.scalar (JSValue.str "eks"))])).2 := by
  decide

theorem mem_storeSet_of_ne (st : RespStore) (k : String) (v : JSValue)
    (k2 : String) (v2 : JSValue) (hmem : (k, v) ∈ st) (hne : k ≠ k2) :
    (k, v) ∈ storeSet st k2 v2 := by
  induction st with
  | nil => cases hmem
  | cons e rest ih =>
    rcases List.mem_cons.mp hmem with he | hr
    · have hek : (e.1 == k2) = false := by
        cases hv : e.1 == k2
        · rfl
        · exact absurd (by rw [← he] at hv; exact (beq_iff_eq.mp hv)) hne
      rw [storeSet]
      simp only [hek, Bool.false_eq_true, if_false]
      exact List.mem_cons.mpr (Or.inl he)
    · rw [storeSet]
      cases hv : e.1 == k2
      · simp only [Bool.false_eq_true, if_false]
        exact List.mem_cons.mpr (Or.inr (ih hr))
      · simp only [if_true]
        exact List.mem_cons.mpr (Or.inr hr)

theorem mem_foldl_storeSet_of_not_overridden (ov : RespStore) :
    ∀ (st : RespStore) (k : String) (v : JSValue), (k, v) ∈ st →
      k ∉ ov.map Prod.fst →
      (k, v) ∈ ov.foldl (fun s e => storeSet s e.1 e.2) st := by
  induction ov with
  | nil => intro st k v hmem _; simpa using hmem
  | cons e rest ih =>
    intro st k v hmem hov
    have hne : k ≠ e.1 := by
      intro hk
      exact hov (by simp [hk])
    have hstep : (k, v) ∈ storeSet st e.1 e.2 :=
      mem_storeSet_of_ne st k v e.1 e.2 hmem hne
    exact ih (storeSet st e.1 e.2) k v hstep (fun hm => hov (by simp [hm]))

/-- Claim C3 (amended): the Response Store is module-global and survives
across `useTemplate` invocations in the same process: any
non-`undefined` entry present in the store when a later call begins,
whose key is not overridden by that call's overrides and is not the
distribution-defaulting key, is still visible in that call's returned
responses. -/
theorem prior_responses_visible_in_later_call (st overrides : RespStore)
    (cfg : JTree) (k : String) (v : JSValue) (hmem : (k, v) ∈ st)
    (hundef : v ≠ JSValue.undef) (hov : k ∉ overrides.map Prod.fst)
    (hfix : k ≠ "deployment_target_distribution") :
    (k, v) ∈ (useTemplateEmptyPromptsCall st overrides cfg).2 := by
  unfold useTemplateEmptyPromptsCall fixUndefinedDistributionResponses
  have h1 : (k, v) ∈ overrides.foldl (fun s e => storeSet s e.1 e.2) st :=
    mem_foldl_storeSet_of_not_overridden overrides st k v hmem hov
  have h2 : (k, v) ∈ (if configNeedsDistributionFix cfg then
      storeSet (overrides.foldl (fun s e => storeSet s e.1 e.2) st)
        "deployment_target_distribution" (defaultedDistribution cfg)
    else overrides.foldl (fun s e => storeSet s e.1 e.2) st) := by
    cases hfixb : configNeedsDistributionFix cfg
    · simpa [hfixb] using h1
    · simp only [hfixb, if_true]
      exact mem_storeSet_of_ne _ k v _ _ h1 hfix
  have hkeep : (v == JSValue.undef) = false := by
    cases hv : v == JSValue.undef
    · rfl
    · exact absurd (beq_iff_eq.mp hv) hundef
  simp only [getResponsesAsRecord, if_true]
  exact List.mem_filter.mpr ⟨h2, by simp [hkeep]⟩

theorem prior_responses_visible_in_later_call_witness :
    ("a", JSValue.str "x") ∈
      (useTemplateEmptyPromptsCall [("a", JSValue.str "x")] []
        (JTree.obj [])).2 :=
  prior_responses_visible_in_later_call [("a", JSValue.str "x")] []
    (JTree.obj []) "a" (JSValue.str "x") (by decide) (by decide) (by decide)
    (by decide)

theorem getValueFromKeyPath_append (p q : List Seg) : ∀ t : JTree,
    getValueFromKeyPath t (p ++ q)
      = match getValueFromKeyPath t p with
        | some u => getValueFromKeyPath u q
        | none => none := by
  induction p with
  | nil => intro t; simp [getValueFromKeyPath]
  | cons s p2 ih =>
    intro t
    cases t with
    | scalar v => cases s <;> simp [getValueFromKeyPath]
    | obj es =>
      cases s with
      | inl k =>
        simp only [List.cons_append, getValueFromKeyPath]
        cases hle : lookupEntry es k with
        | none => simp
        | some u => simpa using ih u
      | inr i => simp [getValueFromKeyPath]
    | arr xs =>
      cases s with
      | inl k => simp [getValueFromKeyPath]
      | inr i =>
        simp only [List.cons_append, getValueFromKeyPath]
        cases hxe : xs[i]? with
        | none => simp
        | some u => simpa using ih u

theorem lookupEntry_filter_self (es : List (String × JTree)) (k : String) :
    lookupEntry (es.filter (fun e => !(e.1 == k))) k = none := by
  induction es with
  | nil => rfl
  | cons e rest ih =>
    cases hv : e.1 == k with
    | true => simpa [List.filter_cons, hv] using ih
    | false => simpa [List.filter_cons, hv, lookupEntry] using ih

theorem lookupEntry_filter_ne (es : List (String × JTree)) (k k2 : String)
    (hne : ¬ (k2 = k)) :
    lookupEntry (es.filter (fun e => !(e.1 == k))) k2 = lookupEntry es k2 := by
  induction es with
  | nil => rfl
  | cons e rest ih =>
    cases hv2 : e.1 == k2 with
    | true =>
      have hvk : (e.1 == k) = false := by
        cases hvk : e.1 == k
        · rfl
        · exact absurd ((beq_iff_eq.mp hv2).symm.trans (beq_iff_eq.mp hvk)) hne
      simp [List.filter_cons, hvk, lookupEntry, hv2]
    | false =>
      cases hvk : e.1 == k with
      | true => simpa [List.filter_cons, hvk, lookupEntry, hv2] using ih
      | false => simpa [List.filter_cons, hvk, lookupEntry, hv2] using ih

theorem lookupEntry_mapEntryValue_self (es : List (String × JTree)) (k : String)
    (f : JTree → JTree) :
    lookupEntry (mapEntryValue es k f) k = (lookupEntry es k).map f := by
  induction es with
  | nil => rfl
  | cons e rest ih =>
    cases hv : e.1 == k with
    | true => simp [mapEntryValue, lookupEntry, hv]
    | false => simpa [mapEntryValue, lookupEntry, hv] using ih

theorem lookupEntry_mapEntryValue_ne (es : List (String × JTree)) (k k2 : String)
    (f : JTree → JTree) (hne : ¬ (k2 = k)) :
    lookupEntry (mapEntryValue es k f) k2 = lookupEntry es k2 := by
  induction es with
  | nil => rfl
  | cons e rest ih =>
    cases hv2 : e.1 == k2 with
    | true =>
      have hvk : (e.1 == k) = false := by
        cases hvk : e.1 == k
        · rfl
        · exact absurd ((beq_iff_eq.mp hv2).symm.trans (beq_iff_eq.mp hvk)) hne
      simp [mapEntryValue, lookupEntry, hvk, hv2]
    | false =>
      cases hvk : e.1 == k with
      | true => simpa [mapEntryValue, lookupEntry, hvk, hv2] using ih
      | false => simpa [mapEntryValue, lookupEntry, hvk, hv2] using ih

theorem getElem?_modifyAt_self (xs : List JTree) : ∀ (i : Nat) (f : JTree → JTree),
    (modifyAt xs i f)[i]? = (xs[i]?).map f := by
  induction xs with
  | nil => intro i f; cases i <;> rfl
  | cons x rest ih =>
    intro i f
    cases i with
    | zero => simp [modifyAt]
    | succ n => simpa [modifyAt] using ih n f

theorem getElem?_modifyAt_ne (xs : List JTree) : ∀ (i j : Nat) (f : JTree → JTree),
    ¬ (j = i) → (modifyAt xs i f)[j]? = xs[j]? := by
  induction xs with
  | nil => intro i j f _; cases i <;> rfl
  | cons x rest ih =>
    intro i j f hne
    cases i with
    | zero =>
      cases j with
      | zero => exact absurd rfl hne
      | succ m => simp [modifyAt]
    | succ n =>
      cases j with
      | zero => simp [modifyAt]
      | succ m =>
        have := ih n m f (fun hc => hne (by rw [hc]))
        simpa [modifyAt] using this

theorem append_singleton_isEmpty_false (p : List Seg) (s : Seg) :
    (p ++ [s]).isEmpty = false := by
  cases p <;> rfl

theorem getValueFromKeyPath_unset_last (k : String) : ∀ (p : List Seg) (t : JTree)
    (es : List (String × JTree)), getValueFromKeyPath t p = some (JTree.obj es) →
    getValueFromKeyPath (unsetValueForKeyPath t (p ++ [Sum.inl k]))
      (p ++ [Sum.inl k]) = none := by
  intro p
  induction p with
  | nil =>
    intro t es h
    have ht : t = JTree.obj es := by simpa [getValueFromKeyPath] using h
    subst ht
    simp [unsetValueForKeyPath, getValueFromKeyPath, lookupEntry_filter_self]
  | cons s p2 ih =>
    intro t es h
    cases t with
    | scalar v => cases s <;> simp [getValueFromKeyPath] at h
    | obj es2 =>
      cases s with
      | inl k1 =>
        simp only [getValueFromKeyPath] at h
        cases hle : lookupEntry es2 k1 with
        | none => rw [hle] at h; simp at h
        | some v =>
          rw [hle] at h
          simp only [List.cons_append, unsetValueForKeyPath, List.append_eq,
            append_singleton_isEmpty_false, Bool.false_eq_true, if_false,
            getValueFromKeyPath, lookupEntry_mapEntryValue_self, hle,
            Option.map_some']
          exact ih v es h
      | inr i => simp [getValueFromKeyPath] at h
    | arr xs =>
      cases s with
      | inl k1 => simp [getValueFromKeyPath] at h
      | inr i =>
        simp only [getValueFromKeyPath] at h
        cases hxe : xs[i]? with
        | none => rw [hxe] at h; simp at h
        | some v =>
          rw [hxe] at h
          simp only [List.cons_append, unsetValueForKeyPath, List.append_eq,
            append_singleton_isEmpty_false, Bool.false_eq_true, if_false,
            getValueFromKeyPath, getElem?_modifyAt_self, hxe,
            Option.map_some']
          exact ih v es h

theorem getValueFromKeyPath_unset_frame (k : String) : ∀ (r : List Seg) (t : JTree)
    (q : List Seg), ¬ ((r ++ [Sum.inl k]) <+: q) → ¬ (q <+: (r ++ [Sum.inl k])) →
    getValueFromKeyPath (unsetValueForKeyPath t (r ++ [Sum.inl k])) q
      = getValueFromKeyPath t q := by
  intro r
  induction r with
  | nil =>
    intro t q h1 h2
    cases t with
    | scalar v => simp [unsetValueForKeyPath]
    | arr xs => simp [unsetValueForKeyPath]
    | obj es =>
      cases q with
      | nil => exact absurd List.nil_prefix h2
      | cons sq q2 =>
        cases sq with
        | inr i => simp [unsetValueForKeyPath, getValueFromKeyPath]
        | inl k2 =>
          have hk2 : ¬ (k2 = k) := by
            intro hk
            subst hk
            exact h1 ⟨q2, rfl⟩
          simp only [List.nil_append, unsetValueForKeyPath, List.isEmpty_nil,
            if_true, getValueFromKeyPath]
          rw [lookupEntry_filter_ne es k k2 hk2]
  | cons s r2 ih =>
    intro t q h1 h2
    cases t with
    | scalar v => simp [unsetValueForKeyPath]
    | obj es =>
      cases s with
      | inr i => simp [unsetValueForKeyPath]
      | inl k1 =>
        cases q with
        | nil => exact absurd List.nil_prefix h2
        | cons sq q2 =>
          cases sq with
          | inr i =>
            simp [unsetValueForKeyPath, getValueFromKeyPath,
              append_singleton_isEmpty_false]
          | inl k2 =>
            by_cases hk : k2 = k1
            · subst hk
              have h1b : ¬ ((r2 ++ [Sum.inl k]) <+: q2) := by
                intro hp
                exact h1 (by
                  rw [List.cons_append]
                  exact List.cons_prefix_cons.mpr ⟨rfl, hp⟩)
              have h2b : ¬ (q2 <+: (r2 ++ [Sum.inl k])) := by
                intro hp
                exact h2 (by
                  rw [List.cons_append]
                  exact List.cons_prefix_cons.mpr ⟨rfl, hp⟩)
              simp only [List.cons_append, unsetValueForKeyPath, List.append_eq,
                append_singleton_isEmpty_false, Bool.false_eq_true, if_false,
                getValueFromKeyPath, lookupEntry_mapEntryValue_self]
              cases hle : lookupEntry es k2 with
              | none => simp
              | some v => simpa using ih v q2 h1b h2b
            · simp only [List.cons_append, unsetValueForKeyPath, List.append_eq,
                append_singleton_isEmpty_false, Bool.false_eq_true, if_false,
                getValueFromKeyPath]
              rw [lookupEntry_mapEntryValue_ne es k1 k2 _ hk]
    | arr xs =>
      cases s with
      | inl k1 => simp [unsetValueForKeyPath]
      | inr i =>
        cases q with
        | nil => exact absurd List.nil_prefix h2
        | cons sq q2 =>
          cases sq with
          | inl k2 =>
            simp [unsetValueForKeyPath, getValueFromKeyPath,
              append_singleton_isEmpty_false]
          | inr j =>
            by_cases hj : j = i
            · subst hj
              have h1b : ¬ ((r2 ++ [Sum.inl k]) <+: q2) := by
                intro hp
                exact h1 (by
                  rw [List.cons_append]
                  exact List.cons_prefix_cons.mpr ⟨rfl, hp⟩)
              have h2b : ¬ (q2 <+: (r2 ++ [Sum.inl k])) := by
                intro hp
                exact h2 (by
                  rw [List.cons_append]
                  exact List.cons_prefix_cons.mpr ⟨rfl, hp⟩)
              simp only [List.cons_append, unsetValueForKeyPath, List.append_eq,
                append_singleton_isEmpty_false, Bool.false_eq_true, if_false,
                getValueFromKeyPath, getElem?_modifyAt_self]
              cases hxe : xs[j]? with
              | none => simp
              | some v => simpa using ih v q2 h1b h2b
            · simp only [List.cons_append, unsetValueForKeyPath, List.append_eq,
                append_singleton_isEmpty_false, Bool.false_eq_true, if_false,
                getValueFromKeyPath]
              rw [getElem?_modifyAt_ne xs i j _ hj]

/-- The path actually deleted by `removeUnsatisfiedGetBlockCallSite`:
the parent path when the call-site key is the parent's sole child, the
call-site path otherwise. -/
def removedPathFor (doc : JTree) (pathToKey : List Seg) : List Seg :=
  if objectKeysLength (getValueFromKeyPath doc pathToKey.dropLast) == 1 then
    pathToKey.dropLast
  else pathToKey

/-- Claim C6: in the config output processor, when a `$cndi.get_block` call
site's condition evaluates false, the call-site key is removed from the
document; when that key was the sole child of its parent node the
parent node is removed instead; and every part of the document at a
path incomparable with the removed path is left unchanged.  The
call-site path is an object-key path `pfx ++ [kp, kc]` (its last two
segments are object keys, as a call-site key and its parent mapping
always are). -/
theorem config_false_condition_removal (doc : JTree) (pfx : List Seg)
    (kp kc : String) (body : JTree)
    (hKey : getValueFromKeyPath doc (pfx ++ [Sum.inl kp, Sum.inl kc]) = some body) :
    getValueFromKeyPath
        (removeUnsatisfiedGetBlockCallSite doc (pfx ++ [Sum.inl kp, Sum.inl kc]))
        (pfx ++ [Sum.inl kp, Sum.inl kc]) = none
    ∧ (objectKeysLength (getValueFromKeyPath doc (pfx ++ [Sum.inl kp])) = 1 →
        getValueFromKeyPath
          (removeUnsatisfiedGetBlockCallSite doc (pfx ++ [Sum.inl kp, Sum.inl kc]))
          (pfx ++ [Sum.inl kp]) = none)
    ∧ ∀ q : List Seg,
        ¬ (removedPathFor doc (pfx ++ [Sum.inl kp, Sum.inl kc]) <+: q) →
        ¬ (q <+: removedPathFor doc (pfx ++ [Sum.inl kp, Sum.inl kc])) →
        getValueFromKeyPath
            (removeUnsatisfiedGetBlockCallSite doc (pfx ++ [Sum.inl kp, Sum.inl kc])) q
          = getValueFromKeyPath doc q := by
  have hsplit : (pfx ++ [Sum.inl kp]) ++ [Sum.inl kc]
      = pfx ++ [Sum.inl kp, Sum.inl kc] :=
    List.append_assoc pfx [Sum.inl kp] [Sum.inl kc]
  have hdrop : (pfx ++ [Sum.inl kp, Sum.inl kc]).dropLast = pfx ++ [Sum.inl kp] := by
    rw [← hsplit, List.dropLast_concat]
  have happ := getValueFromKeyPath_append (pfx ++ [Sum.inl kp]) [Sum.inl kc] doc
  rw [hsplit, hKey] at happ
  cases hpar : getValueFromKeyPath doc (pfx ++ [Sum.inl kp]) with
  | none =>
    rw [hpar] at happ
    exact absurd happ (by simp)
  | some u =>
    rw [hpar] at happ
    cases u with
    | scalar v => simp [getValueFromKeyPath] at happ
    | arr xs => simp [getValueFromKeyPath] at happ
    | obj es =>
      have happ2 := getValueFromKeyPath_append pfx [Sum.inl kp] doc
      rw [hpar] at happ2
      have hrem : removeUnsatisfiedGetBlockCallSite doc (pfx ++ [Sum.inl kp, Sum.inl kc])
          = if objectKeysLength (getValueFromKeyPath doc (pfx ++ [Sum.inl kp])) == 1
            then unsetValueForKeyPath doc (pfx ++ [Sum.inl kp])
            else unsetValueForKeyPath doc (pfx ++ [Sum.inl kp, Sum.inl kc]) := by
        simp [removeUnsatisfiedGetBlockCallSite, hdrop]
      have hrp : removedPathFor doc (pfx ++ [Sum.inl kp, Sum.inl kc])
          = if objectKeysLength (getValueFromKeyPath doc (pfx ++ [Sum.inl kp])) == 1
            then pfx ++ [Sum.inl kp] else pfx ++ [Sum.inl kp, Sum.inl kc] := by
        simp [removedPathFor, hdrop]
      by_cases hn : objectKeysLength (getValueFromKeyPath doc (pfx ++ [Sum.inl kp])) = 1
      · have hnb : (objectKeysLength (getValueFromKeyPath doc (pfx ++ [Sum.inl kp])) == 1)
            = true := by simp [hn]
        simp only [hnb, if_true] at hrem hrp
        cases hgp : getValueFromKeyPath doc pfx with
        | none =>
          rw [hgp] at happ2
          exact absurd happ2 (by simp)
        | some w =>
          rw [hgp] at happ2
          cases w with
          | scalar v => simp [getValueFromKeyPath] at happ2
          | arr xs => simp [getValueFromKeyPath] at happ2
          | obj es2 =>
            have hparn : getValueFromKeyPath
                (unsetValueForKeyPath doc (pfx ++ [Sum.inl kp]))
                (pfx ++ [Sum.inl kp]) = none :=
              getValueFromKeyPath_unset_last kp pfx doc es2 hgp
            refine ⟨?_, fun _ => by rw [hrem]; exact hparn, ?_⟩
            · have hc := getValueFromKeyPath_append (pfx ++ [Sum.inl kp]) [Sum.inl kc]
                (unsetValueForKeyPath doc (pfx ++ [Sum.inl kp]))
              rw [hsplit, hparn] at hc
              rw [hrem]
              exact hc
            · intro q h1 h2
              rw [hrp] at h1 h2
              rw [hrem]
              exact getValueFromKeyPath_unset_frame kp pfx doc q h1 h2
      · have hnb : (objectKeysLength (getValueFromKeyPath doc (pfx ++ [Sum.inl kp])) == 1)
            = false := by simpa using hn
        simp only [hnb, Bool.false_eq_true, if_false] at hrem hrp
        have hcalln : getValueFromKeyPath
            (unsetValueForKeyPath doc ((pfx ++ [Sum.inl kp]) ++ [Sum.inl kc]))
            ((pfx ++ [Sum.inl kp]) ++ [Sum.inl kc]) = none :=
          getValueFromKeyPath_unset_last kc (pfx ++ [Sum.inl kp]) doc es hpar
        rw [hsplit] at hcalln
        refine ⟨by rw [hrem]; exact hcalln,
          fun hcontra => absurd (by rw [hpar]; exact hcontra) hn, ?_⟩
        intro q h1 h2
        rw [hrp] at h1 h2
        rw [hrem]
        rw [← hsplit] at h1 h2 ⊢
        exact getValueFromKeyPath_unset_frame kc (pfx ++ [Sum.inl kp]) doc q h1 h2

theorem config_false_condition_removal_witness :
    getValueFromKeyPath
        (removeUnsatisfiedGetBlockCallSite
          (JTree.obj [("p", JTree.obj [("call", JTree.scalar JSValue.null)]),
                      ("other", JTree.scalar (JSValue.str "z"))])
          (([] : List Seg) ++ [Sum.inl "p", Sum.inl "call"]))
        (([] : List Seg) ++ [Sum.inl "p", Sum.inl "call"]) = none :=
  (config_false_condition_removal
    (JTree.obj [("p", JTree.obj [("call", JTree.scalar JSValue.null)]),
                ("other", JTree.scalar (JSValue.str "z"))])
    [] "p" "call" (JTree.scalar JSValue.null) (by rfl)).1
